import Mathlib

/-!
Verification of the wgmesh reconciliation and state-tracking engine
(`wgmesh.go`) against its natural-language specification.

The Go source is shallowly embedded: machine integers become `Nat`/`Int`,
`time.Time` values become `Int` numbers of seconds (a zero `time.Time`,
`IsZero()`, is `Option.none`), Go maps become association lists with
overwrite-on-insert semantics, and the external collaborators
(`wgtypes.ParseKey`, `net.ResolveUDPAddr`, `net.ParseCIDR`, the
`WireGuardClient`) become explicit oracle parameters.
-/

namespace Wgmesh

/-- `PeerState` from wgmesh.go: a string type with values `"up"`, `"down"`,
`"error"`; the code additionally stores the literal `"configuring"`, and the
Go zero value is the empty string, modelled by `unset`. -/
inductive PeerState where
  | up
  | down
  | error
  | configuring
  | unset
deriving DecidableEq, Repr

/-- `MeshState` from wgmesh.go: `"up"`, `"down"`, `"partial"` (the last one is
named `mixed` here), with `unset` for the Go zero value (empty string). -/
inductive MeshState where
  | up
  | down
  | mixed
  | unset
deriving DecidableEq, Repr

/-- `PeerStatus` struct from wgmesh.go (times in seconds; a Go zero
`time.Time` is represented as `0`). -/
structure PeerStatus where
  name : String
  state : PeerState
  lastSeen : Int
  errMsg : String
  bytesSent : Nat
  bytesRecv : Nat
deriving DecidableEq, Repr

/-- The Go zero value of `PeerStatus`, returned by a map read on a missing
key (`w.status.Peers[name]`). -/
def defaultPeerStatus : PeerStatus :=
  { name := "", state := PeerState.unset, lastSeen := 0, errMsg := "",
    bytesSent := 0, bytesRecv := 0 }

/-- `MeshStatus` struct from wgmesh.go; the Go map `Peers` is modelled as an
association list with overwrite-on-insert semantics. -/
structure MeshStatus where
  networkName : String
  status : MeshState
  peers : List (String × PeerStatus)
  lastUpdate : Int
deriving DecidableEq, Repr

/-- Go map write `m[k] = v`: overwrite the entry if the key is present,
append it otherwise. -/
def mapInsert {α : Type} : List (String × α) → String → α → List (String × α)
  | [], k, v => [(k, v)]
  | (k', v') :: rest, k, v =>
      if k' = k then (k, v) :: rest else (k', v') :: mapInsert rest k v

/-- Go map read `v, ok := m[k]`. -/
def mapLookup {α : Type} : List (String × α) → String → Option α
  | [], _ => none
  | (k', v') :: rest, k => if k' = k then some v' else mapLookup rest k

/-- The aggregate recomputation loop inside `updatePeerState`
(wgmesh.go lines 147-165): `allUp`/`allDown` flags over all peers, then
`up` if `allUp`, else `down` if `allDown`, else `partial`. -/
def computeMeshState (ps : List PeerStatus) : MeshState :=
  if ps.all (fun p => p.state == PeerState.up) then MeshState.up
  else if ps.all (fun p => p.state == PeerState.down) then MeshState.down
  else MeshState.mixed

/-- `updatePeerState` from wgmesh.go lines 132-167: upsert the named entry
(state and error message overwritten, `LastSeen := now`), then recompute the
aggregate over the full peer map and stamp `LastUpdate := now`. -/
def updatePeerState (st : MeshStatus) (name : String) (state : PeerState)
    (err : Option String) (now : Int) : MeshStatus :=
  let p0 := (mapLookup st.peers name).getD defaultPeerStatus
  let p1 := { p0 with
    name := name
    state := state
    errMsg := err.getD ""
    lastSeen := now }
  let peers' := mapInsert st.peers name p1
  { st with peers := peers',
            status := computeMeshState (peers'.map Prod.snd),
            lastUpdate := now }

/-- `Peer` struct from wgmesh.go (the YAML peer spec). Structural equality of
this structure models Go's `reflect.DeepEqual` on `Peer` values. -/
structure Peer where
  name : String
  ip : String
  privateKey : String
  publicKey : String
  allowedIPs : List String
  endpoint : String
  port : Int
  natAssisted : Bool
deriving DecidableEq, Repr

/-- The `for _, peer := range peers { m[peer.Name] = peer }` loops of
`diffMesh` (wgmesh.go lines 370-378): fold the peer list into a name-keyed
map, later occurrences overwriting earlier ones. -/
def mkPeerMap (ps : List Peer) : List (String × Peer) :=
  ps.foldl (fun m p => mapInsert m p.name p) []

/-- `diffMesh` from wgmesh.go lines 365-402: compare the two name-keyed maps;
`removed` are old names missing from new, `updated` are common names whose
specs differ (`reflect.DeepEqual`), carrying the new spec, and `added` are
new names missing from old. -/
def diffMesh (oldPeers newPeers : List Peer) :
    List Peer × List Peer × List Peer :=
  let oldPeerMap := mkPeerMap oldPeers
  let newPeerMap := mkPeerMap newPeers
  let removedPeers := oldPeerMap.filterMap fun e =>
    match mapLookup newPeerMap e.1 with
    | none => some e.2
    | some _ => none
  let updatedPeers := oldPeerMap.filterMap fun e =>
    match mapLookup newPeerMap e.1 with
    | none => none
    | some newPeer => if e.2 ≠ newPeer then some newPeer else none
  let addedPeers := newPeerMap.filterMap fun e =>
    match mapLookup oldPeerMap e.1 with
    | none => some e.2
    | some _ => none
  (addedPeers, removedPeers, updatedPeers)

/-- The effective contents of the name-keyed maps `diffMesh` builds: one
entry per name, holding the value of its last occurrence in the input list. -/
def dedupKeepLast (ps : List Peer) : List Peer :=
  (mkPeerMap ps).map Prod.snd

/-- `Config` struct from wgmesh.go (the YAML mesh spec). -/
structure Config where
  networkName : String
  peers : List Peer
  listenPort : Int
  privateKey : String
deriving DecidableEq, Repr

/-- `wgtypes.PeerConfig` as built by `createPeerConfig`; parsed keys,
resolved addresses and parsed networks are abstract values (`Nat`). The Go
struct literal at wgmesh.go lines 510-515 never mentions
`PersistentKeepaliveInterval`, so it keeps its zero value `nil` (`none`). -/
structure PeerConfig where
  publicKey : Nat
  endpoint : Option Nat
  allowedIPs : List Nat
  replaceAllowedIPs : Bool
  persistentKeepaliveInterval : Option Int
deriving DecidableEq, Repr

/-- `wgtypes.Config` as built by `StartTunnel` (wgmesh.go lines 459-463):
private key, listen port and peer list set, `ReplacePeers` left false. -/
structure DeviceConfig where
  privateKey : Option Nat
  listenPort : Option Int
  replacePeers : Bool
  peers : List PeerConfig
deriving DecidableEq, Repr

/-- The external collaborators used by the adapter and reconciler, as
oracles: `wgtypes.ParseKey`, `net.ResolveUDPAddr`, `net.ParseCIDR` (each
`none` on a parse failure) and `WireGuardClient.ConfigureDevice` (`none` is
a `nil` error, `some` an error message). -/
structure NetEnv where
  parseKey : String → Option Nat
  resolveUDPAddr : String → Option Nat
  parseCIDR : String → Option Nat
  configureDevice : String → DeviceConfig → Option String

/-- The `AllowedIPs` loop of `createPeerConfig` (wgmesh.go lines 501-508):
parse each entry in order, failing at the first invalid CIDR. -/
def parseCIDRList (env : NetEnv) (peerName : String) :
    List String → Except String (List Nat)
  | [] => Except.ok []
  | ip :: rest =>
    match env.parseCIDR ip with
    | none => Except.error ("invalid allowed IP for peer " ++ peerName)
    | some ipNet =>
      match parseCIDRList env peerName rest with
      | Except.error e => Except.error e
      | Except.ok tl => Except.ok (ipNet :: tl)

/-- The endpoint branch of `createPeerConfig` (wgmesh.go lines 493-499):
resolve `"endpoint:port"` only when `endpoint` is non-empty, else leave the
endpoint `nil`. -/
def resolveEndpoint (env : NetEnv) (peer : Peer) : Except String (Option Nat) :=
  if peer.endpoint = "" then Except.ok none
  else
    match env.resolveUDPAddr (peer.endpoint ++ ":" ++ toString peer.port) with
    | none => Except.error ("invalid endpoint for peer " ++ peer.name)
    | some addr => Except.ok (some addr)

/-- `createPeerConfig` from wgmesh.go lines 487-516: parse the public key,
resolve the endpoint, parse every allowed IP, and build the device peer
config with `ReplaceAllowedIPs = true` and no keepalive. -/
def createPeerConfig (env : NetEnv) (peer : Peer) : Except String PeerConfig :=
  match env.parseKey peer.publicKey with
  | none => Except.error ("invalid public key for peer " ++ peer.name)
  | some pubKey =>
    match resolveEndpoint env peer with
    | Except.error e => Except.error e
    | Except.ok endpoint =>
      match parseCIDRList env peer.name peer.allowedIPs with
      | Except.error e => Except.error e
      | Except.ok allowedIPs =>
        Except.ok { publicKey := pubKey
                    endpoint := endpoint
                    allowedIPs := allowedIPs
                    replaceAllowedIPs := true
                    persistentKeepaliveInterval := none }

/-- The validation outcome of a peer, as an optional error message. -/
def validationError (env : NetEnv) (peer : Peer) : Option String :=
  match createPeerConfig env peer with
  | Except.error e => some e
  | Except.ok _ => none

/-- Result of `StartTunnel`: the status tracker contents, the device
configuration passed to the single `ConfigureDevice` call (when reached),
and the returned error (`none` is Go `nil`). -/
structure StartResult where
  status : MeshStatus
  applied : Option DeviceConfig
  ret : Option String
deriving Repr

/-- One step of the peer loop in `StartTunnel` (wgmesh.go lines 447-456):
on validation failure `handlePeerError` marks the peer `Error`, the error is
recorded in `lastErr` and the loop continues; on success the config is
appended and the peer marked `"configuring"`. -/
def startTunnelStep (env : NetEnv) (now : Int)
    (acc : List PeerConfig × MeshStatus × Option String) (peer : Peer) :
    List PeerConfig × MeshStatus × Option String :=
  match createPeerConfig env peer with
  | Except.error e =>
    (acc.1, updatePeerState acc.2.1 peer.name PeerState.error (some e) now,
     some e)
  | Except.ok pc =>
    (acc.1 ++ [pc],
     updatePeerState acc.2.1 peer.name PeerState.configuring none now,
     acc.2.2)

/-- `StartTunnel` from wgmesh.go lines 436-485 (without the monitor
goroutine launch): parse the private key; build per-peer configs, collecting
failures individually; issue one `ConfigureDevice` call with the filtered
set; on device failure mark every peer `Error` and return the wrapped device
error; on success return `lastErr`. -/
def startTunnel (env : NetEnv) (cfg : Config) (st0 : MeshStatus)
    (now : Int) : StartResult :=
  match env.parseKey cfg.privateKey with
  | none =>
    { status := st0, applied := none, ret := some "invalid private key" }
  | some privateKey =>
    let acc := cfg.peers.foldl (startTunnelStep env now) ([], st0, none)
    let dc : DeviceConfig :=
      { privateKey := some privateKey
        listenPort := some cfg.listenPort
        replacePeers := false
        peers := acc.1 }
    match env.configureDevice cfg.networkName dc with
    | some e =>
      let st2 := cfg.peers.foldl
        (fun st peer =>
          updatePeerState st peer.name PeerState.error (some e) now)
        acc.2.1
      { status := st2
        applied := some dc
        ret := some ("failed to configure WireGuard device: " ++ e) }
    | none => { status := acc.2.1, applied := some dc, ret := acc.2.2 }

/-- One live device peer from `Client.Device`, as consumed by
`monitorPeers` (wgmesh.go lines 536-556); a zero `LastHandshakeTime`
(`IsZero()`) is `none`. -/
structure DevicePeer where
  publicKey : String
  lastHandshakeTime : Option Int
  receiveBytes : Nat
  transmitBytes : Nat
deriving DecidableEq, Repr

/-- `getPeerNameByKey` from wgmesh.go lines 561-568: first declared peer
with a matching public key, `""` when there is none. -/
def getPeerNameByKey (cfg : Config) (publicKey : String) : String :=
  match cfg.peers.find? (fun p => p.publicKey == publicKey) with
  | some p => p.name
  | none => ""

/-- The `3 * time.Minute` freshness window of `monitorPeers`, in seconds. -/
def threeMinutes : Int := 3 * 60

/-- The liveness classification inside the monitor tick (wgmesh.go lines
547-552): `up` iff a handshake happened and it is strictly fresher than the
3-minute window. -/
def livenessState (lastHandshakeTime : Option Int) (now : Int) : PeerState :=
  match lastHandshakeTime with
  | some t =>
    if now - t < threeMinutes then PeerState.up else PeerState.down
  | none => PeerState.down

/-- The per-device-peer body of the `monitorPeers` tick (wgmesh.go lines
536-556): resolve the declared name by public key (unmatched peers are
skipped), copy the byte counters, set the liveness state (and `LastSeen` on
a fresh handshake), and write the entry back. The aggregate `Status` field
is not touched. -/
def monitorTickPeer (cfg : Config) (st : MeshStatus) (dp : DevicePeer)
    (now : Int) : MeshStatus :=
  let peerName := getPeerNameByKey cfg dp.publicKey
  if peerName = "" then st
  else
    let status0 := (mapLookup st.peers peerName).getD defaultPeerStatus
    let status1 := { status0 with
      bytesRecv := dp.receiveBytes
      bytesSent := dp.transmitBytes }
    let status2 :=
      match dp.lastHandshakeTime with
      | some t =>
        if now - t < threeMinutes then
          { status1 with state := PeerState.up, lastSeen := t }
        else { status1 with state := PeerState.down }
      | none => { status1 with state := PeerState.down }
    { st with peers := mapInsert st.peers peerName status2 }

/-- One full tick of `monitorPeers`: the loop over all returned device
peers. -/
def monitorTick (cfg : Config) (st : MeshStatus)
    (devicePeers : List DevicePeer) (now : Int) : MeshStatus :=
  devicePeers.foldl (fun s dp => monitorTickPeer cfg s dp now) st

/-- The observable steps of one hot-reload cycle, in execution order. -/
inductive ReloadAction where
  | backupFailed
  | backupDone
  | loadFailed
  | loadDone
  | addPeer (name : String)
  | removePeer (name : String)
  | updatePeer (name : String)
deriving DecidableEq, Repr

/-- The external collaborators of `handleConfigChange`: whether the backup
write (`backupConfig`) succeeds, and the result of `LoadConfig` on the
changed file (`none` on a read/parse failure). -/
structure ReloadEnv where
  backupOk : Bool
  loadConfig : Option Config

/-- `handleConfigChange` from wgmesh.go lines 231-278: back up the current
config (abort on failure), load the new config (abort on failure), diff,
apply added then removed then updated peers, and finally replace the
in-memory config. Returns the in-memory config after the cycle and the
trace of performed steps. -/
def handleConfigChange (env : ReloadEnv) (cfg : Config) :
    Config × List ReloadAction :=
  if env.backupOk then
    match env.loadConfig with
    | none => (cfg, [ReloadAction.backupDone, ReloadAction.loadFailed])
    | some newConfig =>
      let d := diffMesh cfg.peers newConfig.peers
      (newConfig,
        [ReloadAction.backupDone, ReloadAction.loadDone]
          ++ d.1.map (fun p => ReloadAction.addPeer p.name)
          ++ d.2.1.map (fun p => ReloadAction.removePeer p.name)
          ++ d.2.2.map (fun p => ReloadAction.updatePeer p.name))
  else (cfg, [ReloadAction.backupFailed])

/-- Two-digit zero-padded decimal field of Go's reference layout
(`"01"`, `"02"`, `"15"`, `"04"`, `"05"`). -/
def pad2 (n : Nat) : String :=
  String.mk [Nat.digitChar (n / 10 % 10), Nat.digitChar (n % 10)]

/-- Four-digit zero-padded year field (`"2006"`) of Go's reference layout. -/
def pad4 (n : Nat) : String :=
  String.mk [Nat.digitChar (n / 1000 % 10), Nat.digitChar (n / 100 % 10),
    Nat.digitChar (n / 10 % 10), Nat.digitChar (n % 10)]

/-- Go's `time.Now().Format("20060102_150405")` used by `backupConfig`
(wgmesh.go line 281): date, an underscore, then the time of day. -/
def formatBackupTimestamp (y mo d h mi s : Nat) : String :=
  pad4 y ++ pad2 mo ++ pad2 d ++ "_" ++ pad2 h ++ pad2 mi ++ pad2 s

/-- The backup path built by `backupConfig` (wgmesh.go line 281). -/
def backupPath (yamlFilePath : String) (y mo d h mi s : Nat) : String :=
  yamlFilePath ++ ".backup_" ++ formatBackupTimestamp y mo d h mi s

/-- The file mode passed to `os.WriteFile` by `WriteCurrentConfig`
(wgmesh.go line 293). -/
def backupFileMode : Nat := 0o600

/-- Oracle fixture: keys `"k-bad1"` and `"k-bad2"` fail to parse, all other
strings parse; endpoint and CIDR parsing always succeed; the device apply
always succeeds. -/
def envT : NetEnv :=
  { parseKey := fun s => if s = "k-bad1" ∨ s = "k-bad2" then none else some 0
    resolveUDPAddr := fun _ => some 0
    parseCIDR := fun _ => some 0
    configureDevice := fun _ _ => none }

/-- Fixture peer with a valid key. -/
def peerOK1 : Peer :=
  { name := "p1", ip := "", privateKey := "", publicKey := "k1",
    allowedIPs := [], endpoint := "", port := 0, natAssisted := false }

/-- Fixture peer whose public key fails to parse under `envT`. -/
def peerBad1 : Peer :=
  { name := "b1", ip := "", privateKey := "", publicKey := "k-bad1",
    allowedIPs := [], endpoint := "", port := 0, natAssisted := false }

/-- Second fixture peer whose public key fails to parse under `envT`. -/
def peerBad2 : Peer :=
  { name := "b2", ip := "", privateKey := "", publicKey := "k-bad2",
    allowedIPs := [], endpoint := "", port := 0, natAssisted := false }

/-- Fixture peer with a valid key, distinct from `peerOK1`. -/
def peerOK3 : Peer :=
  { name := "p3", ip := "", privateKey := "", publicKey := "k3",
    allowedIPs := [], endpoint := "", port := 0, natAssisted := false }

/-- Fixture peer flagged as NAT-assisted. -/
def peerNat : Peer :=
  { name := "pn", ip := "", privateKey := "", publicKey := "k1",
    allowedIPs := [], endpoint := "", port := 7, natAssisted := true }

/-- Fixture config: valid, invalid, valid peer (the validation-isolation
scenario of the spec). -/
def cfg3 : Config :=
  { networkName := "wg0", peers := [peerOK1, peerBad1, peerOK3],
    listenPort := 51820, privateKey := "pk" }

/-- Fixture config with two invalid peers (distinct error messages). -/
def cfg2bad : Config :=
  { networkName := "wg0", peers := [peerBad1, peerBad2],
    listenPort := 51820, privateKey := "pk" }

/-- Empty initial status tracker contents. -/
def st0T : MeshStatus :=
  { networkName := "wg0", status := MeshState.unset, peers := [],
    lastUpdate := 0 }

/-- Fixture peer for the monitor scenario. -/
def peerA : Peer :=
  { name := "A", ip := "", privateKey := "", publicKey := "kA",
    allowedIPs := [], endpoint := "", port := 0, natAssisted := false }

/-- Fixture config declaring only `peerA`. -/
def cfgMon : Config :=
  { networkName := "wg0", peers := [peerA], listenPort := 0,
    privateKey := "pk" }

/-- Status tracker contents with `A` up and a consistent `up` aggregate. -/
def stMon : MeshStatus :=
  { networkName := "wg0", status := MeshState.up,
    peers := [("A",
      { name := "A", state := PeerState.up, lastSeen := 0, errMsg := "",
        bytesSent := 0, bytesRecv := 0 })],
    lastUpdate := 0 }

/-- Device peer for `A` that never completed a handshake. -/
def dpStale : DevicePeer :=
  { publicKey := "kA", lastHandshakeTime := none, receiveBytes := 5,
    transmitBytes := 6 }

lemma mapLookup_mapInsert {α : Type} (m : List (String × α)) (k : String)
    (v : α) (a : String) :
    mapLookup (mapInsert m k v) a = if k = a then some v else mapLookup m a := by
  induction m with
  | nil => simp [mapInsert, mapLookup]
  | cons e rest ih =>
    obtain ⟨k', v'⟩ := e
    by_cases hk : k' = k
    · subst hk
      by_cases ha : k' = a
      · subst ha
        simp [mapInsert, mapLookup]
      · simp [mapInsert, mapLookup, ha]
    · by_cases ha : k' = a
      · subst ha
        have : ¬ k = k' := fun h => hk h.symm
        simp [mapInsert, mapLookup, hk, this]
      · simp [mapInsert, mapLookup, hk, ha, ih]

lemma mapInsert_of_keys_ne {α : Type} (m : List (String × α)) (k : String)
    (v : α) (h : ∀ e ∈ m, e.1 ≠ k) : mapInsert m k v = m ++ [(k, v)] := by
  induction m with
  | nil => simp [mapInsert]
  | cons e rest ih =>
    obtain ⟨k', v'⟩ := e
    have hne : k' ≠ k := h (k', v') (by simp)
    simp only [mapInsert, hne, if_false, List.cons_append, List.cons.injEq,
      true_and]
    exact ih fun e he => h e (by simp [he])

lemma foldl_mkPeerMap_nodup (ps : List Peer) (m : List (String × Peer))
    (hdisj : ∀ e ∈ m, ∀ p ∈ ps, e.1 ≠ p.name)
    (hnod : (ps.map Peer.name).Nodup) :
    ps.foldl (fun m p => mapInsert m p.name p) m =
      m ++ ps.map (fun p => (p.name, p)) := by
  induction ps generalizing m with
  | nil => simp
  | cons p rest ih =>
    have hstep : mapInsert m p.name p = m ++ [(p.name, p)] :=
      mapInsert_of_keys_ne m p.name p fun e he => hdisj e he p (by simp)
    have hnotin : p.name ∉ rest.map Peer.name := by
      simp only [List.map_cons, List.nodup_cons] at hnod
      exact hnod.1
    have hdisj' : ∀ e ∈ m ++ [(p.name, p)], ∀ q ∈ rest, e.1 ≠ q.name := by
      intro e he q hq
      rcases List.mem_append.mp he with hm | hp
      · exact hdisj e hm q (by simp [hq])
      · simp only [List.mem_singleton] at hp
        subst hp
        intro hcontra
        apply hnotin
        have hpq : p.name = q.name := hcontra
        rw [hpq]
        exact List.mem_map_of_mem Peer.name hq
    have hnod' : (rest.map Peer.name).Nodup := by
      simp only [List.map_cons, List.nodup_cons] at hnod
      exact hnod.2
    calc (p :: rest).foldl (fun m q => mapInsert m q.name q) m
        = rest.foldl (fun m q => mapInsert m q.name q) (m ++ [(p.name, p)]) := by
          simp [List.foldl_cons, hstep]
      _ = (m ++ [(p.name, p)]) ++ rest.map (fun q => (q.name, q)) :=
          ih (m ++ [(p.name, p)]) hdisj' hnod'
      _ = m ++ (p :: rest).map (fun q => (q.name, q)) := by simp

lemma mkPeerMap_of_nodup (ps : List Peer)
    (hnod : (ps.map Peer.name).Nodup) :
    mkPeerMap ps = ps.map (fun p => (p.name, p)) := by
  have := foldl_mkPeerMap_nodup ps [] (by simp) hnod
  simpa [mkPeerMap] using this

lemma mapLookup_map_pair_eq_none_iff (ps : List Peer) (k : String) :
    mapLookup (ps.map fun p => (p.name, p)) k = none ↔
      ∀ q ∈ ps, q.name ≠ k := by
  induction ps with
  | nil => simp [mapLookup]
  | cons p rest ih =>
    by_cases hk : p.name = k
    · simp [mapLookup, hk]
    · simp [mapLookup, hk, ih]

lemma mapLookup_map_pair_eq_some_iff (ps : List Peer) (k : String) (q : Peer)
    (hnod : (ps.map Peer.name).Nodup) :
    mapLookup (ps.map fun p => (p.name, p)) k = some q ↔
      q ∈ ps ∧ q.name = k := by
  induction ps with
  | nil => simp [mapLookup]
  | cons p rest ih =>
    simp only [List.map_cons, List.nodup_cons] at hnod
    by_cases hk : p.name = k
    · subst hk
      have hL : mapLookup ((p :: rest).map fun x => (x.name, x)) p.name
          = some p := by
        simp [mapLookup]
      rw [hL]
      constructor
      · intro h
        obtain rfl : p = q := Option.some.inj h
        exact ⟨by simp, rfl⟩
      · rintro ⟨hq, hname⟩
        rcases List.mem_cons.mp hq with rfl | hq'
        · rfl
        · exact absurd (hname ▸ List.mem_map_of_mem Peer.name hq') hnod.1
    · simp only [List.map_cons, mapLookup, if_neg hk, ih hnod.2,
        List.mem_cons]
      constructor
      · rintro ⟨hq, hname⟩
        exact ⟨Or.inr hq, hname⟩
      · rintro ⟨rfl | hq, hname⟩
        · exact absurd hname hk
        · exact ⟨hq, hname⟩

lemma mem_mapInsert {α : Type} (e : String × α) (m : List (String × α))
    (k : String) (v : α) (he : e ∈ mapInsert m k v) : e ∈ m ∨ e = (k, v) := by
  induction m with
  | nil => simpa [mapInsert] using he
  | cons f tail ih =>
    obtain ⟨k', v'⟩ := f
    by_cases hk : k' = k
    · subst hk
      simp only [mapInsert, eq_self_iff_true, if_true, List.mem_cons] at he
      rcases he with heq | hmem
      · exact Or.inr heq
      · exact Or.inl (List.mem_cons_of_mem _ hmem)
    · simp only [mapInsert, if_neg hk, List.mem_cons] at he
      rcases he with heq | hmem
      · exact Or.inl (by simp [heq])
      · rcases ih hmem with h | h
        · exact Or.inl (List.mem_cons_of_mem _ h)
        · exact Or.inr h

lemma map_fst_mkPeerMap_nodup (ps : List Peer) :
    ((mkPeerMap ps).map Prod.fst).Nodup := by
  suffices h : ∀ m : List (String × Peer), (m.map Prod.fst).Nodup →
      ((ps.foldl (fun m p => mapInsert m p.name p) m).map Prod.fst).Nodup by
    exact h [] (by simp)
  induction ps with
  | nil => exact fun m hm => hm
  | cons p rest ih =>
    intro m hm
    simp only [List.foldl_cons]
    refine ih (mapInsert m p.name p) ?_
    clear ih
    induction m with
    | nil => simp [mapInsert]
    | cons e tail ihm =>
      obtain ⟨k', v'⟩ := e
      by_cases hk : k' = p.name
      · subst hk
        simpa [mapInsert] using hm
      · simp only [List.map_cons, List.nodup_cons] at hm
        have htail := ihm hm.2
        simp only [mapInsert, if_neg hk, List.map_cons, List.nodup_cons]
        refine ⟨?_, htail⟩
        intro hcon
        rcases List.mem_map.mp hcon with ⟨e', he', hfst⟩
        rcases mem_mapInsert e' tail p.name p he' with hmem | heq
        · exact hm.1 (hfst ▸ List.mem_map_of_mem Prod.fst hmem)
        · apply hk
          rw [← hfst, heq]

lemma mapLookup_of_mem_of_nodup {α : Type} (m : List (String × α))
    (k : String) (v : α) (hnod : (m.map Prod.fst).Nodup)
    (hmem : (k, v) ∈ m) : mapLookup m k = some v := by
  induction m with
  | nil => cases hmem
  | cons e rest ih =>
    obtain ⟨k', v'⟩ := e
    simp only [List.map_cons, List.nodup_cons] at hnod
    rcases List.mem_cons.mp hmem with heq | hmem'
    · obtain ⟨rfl, rfl⟩ := Prod.mk.injEq .. ▸ heq
      simp [mapLookup]
    · by_cases hk : k' = k
      · subst hk
        exact absurd (List.mem_map_of_mem Prod.fst hmem') hnod.1
      · simp only [mapLookup, if_neg hk]
        exact ih hnod.2 hmem'

lemma mem_diff_added (oldPeers newPeers : List Peer)
    (hold : (oldPeers.map Peer.name).Nodup)
    (hnew : (newPeers.map Peer.name).Nodup) (p : Peer) :
    p ∈ (diffMesh oldPeers newPeers).1 ↔
      p ∈ newPeers ∧ ∀ q ∈ oldPeers, q.name ≠ p.name := by
  unfold diffMesh
  simp only [mkPeerMap_of_nodup oldPeers hold, mkPeerMap_of_nodup newPeers hnew,
    List.mem_filterMap]
  constructor
  · rintro ⟨e, he, hg⟩
    rcases List.mem_map.mp he with ⟨a, ha, rfl⟩
    rcases hcase : mapLookup (oldPeers.map fun q => (q.name, q)) a.name with _ | w
    · rw [hcase] at hg
      have hap : a = p := Option.some.inj hg
      refine ⟨hap ▸ ha, ?_⟩
      rw [← hap]
      exact (mapLookup_map_pair_eq_none_iff oldPeers a.name).mp hcase
    · rw [hcase] at hg
      cases hg
  · rintro ⟨hp, hnone⟩
    refine ⟨(p.name, p), List.mem_map_of_mem _ hp, ?_⟩
    have h := (mapLookup_map_pair_eq_none_iff oldPeers p.name).mpr hnone
    simp [h]

lemma mem_diff_removed (oldPeers newPeers : List Peer)
    (hold : (oldPeers.map Peer.name).Nodup)
    (hnew : (newPeers.map Peer.name).Nodup) (p : Peer) :
    p ∈ (diffMesh oldPeers newPeers).2.1 ↔
      p ∈ oldPeers ∧ ∀ q ∈ newPeers, q.name ≠ p.name := by
  unfold diffMesh
  simp only [mkPeerMap_of_nodup oldPeers hold, mkPeerMap_of_nodup newPeers hnew,
    List.mem_filterMap]
  constructor
  · rintro ⟨e, he, hg⟩
    rcases List.mem_map.mp he with ⟨a, ha, rfl⟩
    rcases hcase : mapLookup (newPeers.map fun q => (q.name, q)) a.name with _ | w
    · rw [hcase] at hg
      have hap : a = p := Option.some.inj hg
      refine ⟨hap ▸ ha, ?_⟩
      rw [← hap]
      exact (mapLookup_map_pair_eq_none_iff newPeers a.name).mp hcase
    · rw [hcase] at hg
      cases hg
  · rintro ⟨hp, hnone⟩
    refine ⟨(p.name, p), List.mem_map_of_mem _ hp, ?_⟩
    have h := (mapLookup_map_pair_eq_none_iff newPeers p.name).mpr hnone
    simp [h]

lemma mem_diff_updated (oldPeers newPeers : List Peer)
    (hold : (oldPeers.map Peer.name).Nodup)
    (hnew : (newPeers.map Peer.name).Nodup) (p : Peer) :
    p ∈ (diffMesh oldPeers newPeers).2.2 ↔
      p ∈ newPeers ∧ ∃ q ∈ oldPeers, q.name = p.name ∧ q ≠ p := by
  unfold diffMesh
  simp only [mkPeerMap_of_nodup oldPeers hold, mkPeerMap_of_nodup newPeers hnew,
    List.mem_filterMap]
  constructor
  · rintro ⟨e, he, hg⟩
    rcases List.mem_map.mp he with ⟨a, ha, rfl⟩
    rcases hcase : mapLookup (newPeers.map fun q => (q.name, q)) a.name with _ | w
    · rw [hcase] at hg
      cases hg
    · rw [hcase] at hg
      by_cases heq : a = w
      · subst heq
        simp at hg
      · simp only [ne_eq] at hg
        simp [heq] at hg
        subst hg
        have hw := (mapLookup_map_pair_eq_some_iff newPeers a.name w hnew).mp hcase
        exact ⟨hw.1, a, ha, hw.2.symm, heq⟩
  · rintro ⟨hp, a, ha, hname, hne⟩
    refine ⟨(a.name, a), List.mem_map_of_mem _ ha, ?_⟩
    have h : mapLookup (newPeers.map fun q => (q.name, q)) a.name = some p :=
      (mapLookup_map_pair_eq_some_iff newPeers a.name p hnew).mpr ⟨hp, hname.symm⟩
    simp [h, hne]

lemma diffMesh_self_eq (X : List Peer) : diffMesh X X = ([], [], []) := by
  have hkey : ∀ e ∈ mkPeerMap X, mapLookup (mkPeerMap X) e.1 = some e.2 := by
    intro e he
    exact mapLookup_of_mem_of_nodup _ e.1 e.2 (map_fst_mkPeerMap_nodup X)
      (by simpa using he)
  unfold diffMesh
  simp only [Prod.mk.injEq]
  refine ⟨?_, ?_, ?_⟩
  · rw [List.filterMap_eq_nil_iff]
    intro e he
    rw [hkey e he]
  · rw [List.filterMap_eq_nil_iff]
    intro e he
    rw [hkey e he]
  · rw [List.filterMap_eq_nil_iff]
    intro e he
    rw [hkey e he]
    simp

/-- Claim C2: with unique names, `diffMesh` returns exactly the peers only in
new (`added`), only in old (`removed`), and the new specs of common names
whose full spec differs structurally (`updated`); `diffMesh X X` is three
empty lists for every `X`; and the three results are the same sets for any
reordering of the inputs. -/
theorem C2_diffMesh_characterization (oldPeers newPeers : List Peer)
    (hold : (oldPeers.map Peer.name).Nodup)
    (hnew : (newPeers.map Peer.name).Nodup) :
    (∀ p, p ∈ (diffMesh oldPeers newPeers).1 ↔
       p ∈ newPeers ∧ ∀ q ∈ oldPeers, q.name ≠ p.name) ∧
    (∀ p, p ∈ (diffMesh oldPeers newPeers).2.1 ↔
       p ∈ oldPeers ∧ ∀ q ∈ newPeers, q.name ≠ p.name) ∧
    (∀ p, p ∈ (diffMesh oldPeers newPeers).2.2 ↔
       p ∈ newPeers ∧ ∃ q ∈ oldPeers, q.name = p.name ∧ q ≠ p) ∧
    (∀ X : List Peer, diffMesh X X = ([], [], [])) ∧
    (∀ old2 new2 : List Peer, old2.Perm oldPeers → new2.Perm newPeers → ∀ p,
       (p ∈ (diffMesh old2 new2).1 ↔ p ∈ (diffMesh oldPeers newPeers).1) ∧
       (p ∈ (diffMesh old2 new2).2.1 ↔ p ∈ (diffMesh oldPeers newPeers).2.1) ∧
       (p ∈ (diffMesh old2 new2).2.2 ↔ p ∈ (diffMesh oldPeers newPeers).2.2)) := by
  refine ⟨mem_diff_added oldPeers newPeers hold hnew,
    mem_diff_removed oldPeers newPeers hold hnew,
    mem_diff_updated oldPeers newPeers hold hnew,
    diffMesh_self_eq, ?_⟩
  intro old2 new2 ho2 hn2 p
  have hold2 : (old2.map Peer.name).Nodup := ((ho2.map Peer.name).nodup_iff).mpr hold
  have hnew2 : (new2.map Peer.name).Nodup := ((hn2.map Peer.name).nodup_iff).mpr hnew
  refine ⟨?_, ?_, ?_⟩
  · rw [mem_diff_added old2 new2 hold2 hnew2,
      mem_diff_added oldPeers newPeers hold hnew]
    simp only [hn2.mem_iff]
    constructor
    · rintro ⟨h1, h2⟩
      exact ⟨h1, fun q hq => h2 q (ho2.mem_iff.mpr hq)⟩
    · rintro ⟨h1, h2⟩
      exact ⟨h1, fun q hq => h2 q (ho2.mem_iff.mp hq)⟩
  · rw [mem_diff_removed old2 new2 hold2 hnew2,
      mem_diff_removed oldPeers newPeers hold hnew]
    simp only [ho2.mem_iff]
    constructor
    · rintro ⟨h1, h2⟩
      exact ⟨h1, fun q hq => h2 q (hn2.mem_iff.mpr hq)⟩
    · rintro ⟨h1, h2⟩
      exact ⟨h1, fun q hq => h2 q (hn2.mem_iff.mp hq)⟩
  · rw [mem_diff_updated old2 new2 hold2 hnew2,
      mem_diff_updated oldPeers newPeers hold hnew]
    simp only [hn2.mem_iff]
    constructor
    · rintro ⟨h1, q, hq, h3⟩
      exact ⟨h1, q, ho2.mem_iff.mp hq, h3⟩
    · rintro ⟨h1, q, hq, h3⟩
      exact ⟨h1, q, ho2.mem_iff.mpr hq, h3⟩

/-- Witness for C2 at a concrete input: the no-op diff on a one-peer list. -/
theorem C2_diffMesh_characterization_witness :
    diffMesh
      [{ name := "a", ip := "", privateKey := "", publicKey := "ka",
         allowedIPs := [], endpoint := "", port := 0, natAssisted := false }]
      [{ name := "a", ip := "", privateKey := "", publicKey := "ka",
         allowedIPs := [], endpoint := "", port := 0, natAssisted := false }] =
      ([], [], []) :=
  (C2_diffMesh_characterization
    [{ name := "a", ip := "", privateKey := "", publicKey := "ka",
       allowedIPs := [], endpoint := "", port := 0, natAssisted := false }]
    [] (by decide) (by decide)).2.2.2.1
    [{ name := "a", ip := "", privateKey := "", publicKey := "ka",
       allowedIPs := [], endpoint := "", port := 0, natAssisted := false }]

lemma mkPeerMap_entry_name (ps : List Peer) :
    ∀ e ∈ mkPeerMap ps, e.2.name = e.1 := by
  suffices h : ∀ m : List (String × Peer), (∀ e ∈ m, e.2.name = e.1) →
      ∀ e ∈ ps.foldl (fun m p => mapInsert m p.name p) m, e.2.name = e.1 by
    exact h [] (by simp)
  induction ps with
  | nil => exact fun m hm => hm
  | cons p rest ih =>
    intro m hm
    simp only [List.foldl_cons]
    refine ih (mapInsert m p.name p) ?_
    intro e he
    rcases mem_mapInsert e m p.name p he with hmem | heq
    · exact hm e hmem
    · rw [heq]

lemma mkPeerMap_dedupKeepLast (ps : List Peer) :
    mkPeerMap (dedupKeepLast ps) = mkPeerMap ps := by
  have hname : (dedupKeepLast ps).map Peer.name = (mkPeerMap ps).map Prod.fst := by
    unfold dedupKeepLast
    rw [List.map_map]
    exact List.map_congr_left fun e he => mkPeerMap_entry_name ps e he
  have hnod : ((dedupKeepLast ps).map Peer.name).Nodup := by
    rw [hname]
    exact map_fst_mkPeerMap_nodup ps
  rw [mkPeerMap_of_nodup _ hnod]
  unfold dedupKeepLast
  rw [List.map_map]
  have hid : ∀ e ∈ mkPeerMap ps,
      ((fun p => (p.name, p)) ∘ Prod.snd) e = id e := by
    intro e he
    have h1 := mkPeerMap_entry_name ps e he
    obtain ⟨a, b⟩ := e
    simp only [Function.comp_apply, id_eq, Prod.mk.injEq]
    simpa using h1
  rw [List.map_congr_left hid, List.map_id]

lemma mkPeerMap_append_singleton (ps : List Peer) (p : Peer) :
    mkPeerMap (ps ++ [p]) = mapInsert (mkPeerMap ps) p.name p := by
  simp [mkPeerMap, List.foldl_append]

lemma mapLookup_mkPeerMap_filter (ps : List Peer) (k : String) :
    mapLookup (mkPeerMap ps) k =
      (ps.filter (fun p => p.name == k)).getLast? := by
  induction ps using List.reverseRecOn with
  | nil => simp [mkPeerMap, mapLookup]
  | append_singleton ps p ih =>
    rw [mkPeerMap_append_singleton, mapLookup_mapInsert, List.filter_append]
    by_cases hk : p.name = k
    · rw [if_pos hk]
      have hf : List.filter (fun q => q.name == k) [p] = [p] := by simp [hk]
      rw [hf, List.getLast?_concat]
    · rw [if_neg hk]
      have hf : List.filter (fun q => q.name == k) [p] = [] := by simp [hk]
      rw [hf, List.append_nil, ih]

/-- Claim C10: with duplicate names in an input list, `diffMesh` does not
fail: both lists are folded into name-keyed maps in order, so later
occurrences overwrite earlier ones and the result equals the result on the
deduplicated lists that keep only the last occurrence of each name; the map
lookups indeed return the last occurrence. -/
theorem C10_duplicate_names_keep_last (oldPeers newPeers : List Peer) :
    (diffMesh oldPeers newPeers =
      diffMesh (dedupKeepLast oldPeers) (dedupKeepLast newPeers)) ∧
    (∀ ps : List Peer, ∀ k : String,
      mapLookup (mkPeerMap ps) k =
        (ps.filter (fun p => p.name == k)).getLast?) := by
  constructor
  · unfold diffMesh
    rw [mkPeerMap_dedupKeepLast, mkPeerMap_dedupKeepLast]
  · exact mapLookup_mkPeerMap_filter

/-- Claim C1, counterexample: the aggregate computed by the status tracker's
recomputation loop on the empty peer map is `up` (both `allUp` and `allDown`
stay true and the `allUp` branch wins), not `down` as the claim states. -/
theorem C1_empty_map_counterexample :
    computeMeshState [] = MeshState.up ∧ MeshState.up ≠ MeshState.down := by
  constructor
  · rfl
  · intro h
    cases h

/-- Claim C1, amended: the aggregate recomputed by `updatePeerState` always
equals `computeMeshState` of the resulting peer map, and that function is
`up` iff every entry is `up` (hence `up`, not `down`, on the empty map),
`down` iff the map is non-empty and every entry is `down`, and `partial`
otherwise. -/
theorem C1_aggregate_recomputation (st : MeshStatus) (name : String)
    (s : PeerState) (e : Option String) (now : Int) :
    ((updatePeerState st name s e now).status =
      computeMeshState ((updatePeerState st name s e now).peers.map Prod.snd)) ∧
    (∀ ps : List PeerStatus,
      (computeMeshState ps = MeshState.up ↔ ∀ p ∈ ps, p.state = PeerState.up) ∧
      (computeMeshState ps = MeshState.down ↔
        (ps ≠ [] ∧ ∀ p ∈ ps, p.state = PeerState.down)) ∧
      (computeMeshState ps = MeshState.mixed ↔
        ((∃ p ∈ ps, p.state ≠ PeerState.up) ∧
         (∃ p ∈ ps, p.state ≠ PeerState.down)))) := by
  constructor
  · rfl
  · intro ps
    cases h1 : ps.all (fun p => p.state == PeerState.up) with
    | true =>
      cases h2 : ps.all (fun p => p.state == PeerState.down) with
      | true =>
        simp only [List.all_eq_true, beq_iff_eq] at h1 h2
        have hnil : ps = [] := by
          cases ps with
          | nil => rfl
          | cons a l =>
            have e1 := h1 a (by simp)
            have e2 := h2 a (by simp)
            rw [e1] at e2
            cases e2
        subst hnil
        simp [computeMeshState]
      | false =>
        have hcs : computeMeshState ps = MeshState.up := by
          simp [computeMeshState, h1]
        rw [hcs]
        simp only [List.all_eq_true, beq_iff_eq] at h1
        simp only [List.all_eq_false, beq_iff_eq] at h2
        obtain ⟨r, hr, hrs⟩ := h2
        refine ⟨⟨fun _ => h1, fun _ => rfl⟩, ?_, ?_⟩
        · refine ⟨(fun h => by cases h), ?_⟩
          rintro ⟨-, hdown⟩
          exact absurd (hdown r hr) hrs
        · refine ⟨(fun h => by cases h), ?_⟩
          rintro ⟨⟨q, hq, hqs⟩, -⟩
          exact absurd (h1 q hq) hqs
    | false =>
      cases h2 : ps.all (fun p => p.state == PeerState.down) with
      | true =>
        have hcs : computeMeshState ps = MeshState.down := by
          simp [computeMeshState, h1, h2]
        rw [hcs]
        simp only [List.all_eq_false, beq_iff_eq] at h1
        simp only [List.all_eq_true, beq_iff_eq] at h2
        obtain ⟨q, hq, hqs⟩ := h1
        refine ⟨?_, ?_, ?_⟩
        · refine ⟨(fun h => by cases h), fun h => absurd (h q hq) hqs⟩
        · refine ⟨fun _ => ⟨?_, h2⟩, fun _ => rfl⟩
          intro hnil
          rw [hnil] at hq
          cases hq
        · refine ⟨(fun h => by cases h), ?_⟩
          rintro ⟨-, ⟨r, hr, hrs⟩⟩
          exact absurd (h2 r hr) hrs
      | false =>
        have hcs : computeMeshState ps = MeshState.mixed := by
          simp [computeMeshState, h1, h2]
        rw [hcs]
        simp only [List.all_eq_false, beq_iff_eq] at h1 h2
        obtain ⟨q, hq, hqs⟩ := h1
        obtain ⟨r, hr, hrs⟩ := h2
        refine ⟨?_, ?_, ?_⟩
        · refine ⟨(fun h => by cases h), fun h => absurd (h q hq) hqs⟩
        · refine ⟨(fun h => by cases h), ?_⟩
          rintro ⟨-, hdown⟩
          exact absurd (hdown r hr) hrs
        · exact ⟨fun _ => ⟨⟨q, hq, hqs⟩, ⟨r, hr, hrs⟩⟩, fun _ => rfl⟩

lemma startTunnelFold_configs (env : NetEnv) (now : Int) (peers : List Peer) :
    ∀ (pcs0 : List PeerConfig) (st0 : MeshStatus) (le0 : Option String),
      (peers.foldl (startTunnelStep env now) (pcs0, st0, le0)).1 =
        pcs0 ++ peers.filterMap (fun q => (createPeerConfig env q).toOption) := by
  induction peers with
  | nil =>
    intro pcs0 st0 le0
    simp
  | cons p rest ih =>
    intro pcs0 st0 le0
    rcases hc : createPeerConfig env p with e | pc
    · simp only [List.foldl_cons, startTunnelStep, hc, List.filterMap_cons,
        Except.toOption]
      exact ih pcs0 _ _
    · simp only [List.foldl_cons, startTunnelStep, hc, List.filterMap_cons,
        Except.toOption]
      rw [ih (pcs0 ++ [pc]) _ _]
      simp [Except.toOption]

lemma startTunnelFold_lastErr (env : NetEnv) (now : Int) (peers : List Peer) :
    ∀ (pcs0 : List PeerConfig) (st0 : MeshStatus) (le0 : Option String),
      (peers.foldl (startTunnelStep env now) (pcs0, st0, le0)).2.2 =
        (peers.filterMap (validationError env)).foldl (fun _ e => some e) le0 := by
  induction peers with
  | nil =>
    intro pcs0 st0 le0
    simp
  | cons p rest ih =>
    intro pcs0 st0 le0
    rcases hc : createPeerConfig env p with e | pc
    · simp only [List.foldl_cons, startTunnelStep, hc, List.filterMap_cons,
        validationError]
      exact ih _ _ _
    · simp only [List.foldl_cons, startTunnelStep, hc, List.filterMap_cons,
        validationError]
      exact ih _ _ _

lemma lastErr_foldl_some (l : List String) :
    ∀ a : String, l.foldl (fun _ e => some e) (some a) = (a :: l).getLast? := by
  induction l with
  | nil =>
    intro a
    simp
  | cons x t ih =>
    intro a
    simp only [List.foldl_cons]
    rw [ih x, List.getLast?_cons_cons]

lemma lastErr_foldl_none (l : List String) :
    l.foldl (fun _ e => some e) none = l.getLast? := by
  cases l with
  | nil => simp
  | cons x t =>
    simp only [List.foldl_cons]
    exact lastErr_foldl_some t x

lemma startTunnelFold_status (env : NetEnv) (now : Int) (peers : List Peer) :
    ∀ (pcs0 : List PeerConfig) (st0 : MeshStatus) (le0 : Option String),
      (peers.foldl (startTunnelStep env now) (pcs0, st0, le0)).2.1 =
        peers.foldl (fun st q => updatePeerState st q.name
          (match createPeerConfig env q with
           | Except.error _ => PeerState.error
           | Except.ok _ => PeerState.configuring)
          (validationError env q) now) st0 := by
  induction peers with
  | nil =>
    intro pcs0 st0 le0
    simp
  | cons p rest ih =>
    intro pcs0 st0 le0
    rcases hc : createPeerConfig env p with e | pc
    · simp only [List.foldl_cons, startTunnelStep, hc, validationError]
      exact ih _ _ _
    · simp only [List.foldl_cons, startTunnelStep, hc, validationError]
      exact ih _ _ _

lemma lookup_updatePeerState_ne (st : MeshStatus) (name : String)
    (s : PeerState) (e : Option String) (now : Int) (a : String)
    (h : name ≠ a) :
    mapLookup (updatePeerState st name s e now).peers a =
      mapLookup st.peers a := by
  simp only [updatePeerState]
  rw [mapLookup_mapInsert]
  simp [h]

lemma lookup_updatePeerState_self (st : MeshStatus) (name : String)
    (s : PeerState) (e : Option String) (now : Int) :
    (mapLookup (updatePeerState st name s e now).peers name).map
      PeerStatus.state = some s := by
  simp only [updatePeerState]
  rw [mapLookup_mapInsert]
  simp

lemma lookup_statusFold_not_mem (g : Peer → PeerState)
    (h : Peer → Option String) (now : Int) (peers : List Peer) (a : String)
    (ha : ∀ q ∈ peers, q.name ≠ a) :
    ∀ st : MeshStatus,
      mapLookup ((peers.foldl
        (fun st q => updatePeerState st q.name (g q) (h q) now) st).peers) a =
      mapLookup st.peers a := by
  induction peers with
  | nil => exact fun st => rfl
  | cons p rest ih =>
    intro st
    simp only [List.foldl_cons]
    rw [ih (fun q hq => ha q (List.mem_cons_of_mem p hq))]
    exact lookup_updatePeerState_ne st p.name (g p) (h p) now a
      (ha p (List.mem_cons_self p rest))

lemma lookup_statusFold_state (g : Peer → PeerState)
    (h : Peer → Option String) (now : Int) (peers : List Peer)
    (hnod : (peers.map Peer.name).Nodup) :
    ∀ st : MeshStatus, ∀ q ∈ peers,
      (mapLookup ((peers.foldl
        (fun st q => updatePeerState st q.name (g q) (h q) now) st).peers)
        q.name).map PeerStatus.state = some (g q) := by
  induction peers with
  | nil =>
    intro st q hq
    cases hq
  | cons p rest ih =>
    intro st q hq
    simp only [List.map_cons, List.nodup_cons] at hnod
    simp only [List.foldl_cons]
    rcases List.mem_cons.mp hq with rfl | hq'
    · rw [lookup_statusFold_not_mem g h now rest q.name
        (fun r hr hcontra => hnod.1 (hcontra ▸ List.mem_map_of_mem Peer.name hr))]
      exact lookup_updatePeerState_self st q.name (g q) (h q) now
    · exact ih hnod.2 _ q hq'

/-- Claim C3: in `StartTunnel`, a peer failing validation is marked `Error`
and its config excluded, every other peer's config is built and included in
the single device-level apply, and when any peer failed validation the
return value is non-nil even though the apply succeeded. -/
theorem C3_validation_isolation (env : NetEnv) (cfg : Config)
    (st0 : MeshStatus) (now : Int) (pk : Nat)
    (hnames : (cfg.peers.map Peer.name).Nodup)
    (hpk : env.parseKey cfg.privateKey = some pk)
    (happly : ∀ n dc, env.configureDevice n dc = none) :
    ((startTunnel env cfg st0 now).applied = some
      { privateKey := some pk
        listenPort := some cfg.listenPort
        replacePeers := false
        peers := cfg.peers.filterMap fun q => (createPeerConfig env q).toOption }) ∧
    (∀ q ∈ cfg.peers, ∀ e, createPeerConfig env q = Except.error e →
      (mapLookup (startTunnel env cfg st0 now).status.peers q.name).map
        PeerStatus.state = some PeerState.error) ∧
    (∀ q ∈ cfg.peers, ∀ pc, createPeerConfig env q = Except.ok pc →
      (mapLookup (startTunnel env cfg st0 now).status.peers q.name).map
        PeerStatus.state = some PeerState.configuring) ∧
    ((∃ q ∈ cfg.peers, ∃ e, createPeerConfig env q = Except.error e) →
      (startTunnel env cfg st0 now).ret.isSome) := by
  have hunfold : startTunnel env cfg st0 now =
      { status := (cfg.peers.foldl (startTunnelStep env now) ([], st0, none)).2.1
        applied := some
          { privateKey := some pk
            listenPort := some cfg.listenPort
            replacePeers := false
            peers := (cfg.peers.foldl (startTunnelStep env now) ([], st0, none)).1 }
        ret := (cfg.peers.foldl (startTunnelStep env now) ([], st0, none)).2.2 } := by
    simp only [startTunnel, hpk, happly]
  refine ⟨?_, ?_, ?_, ?_⟩
  · rw [hunfold]
    simp only [Option.some.injEq]
    rw [startTunnelFold_configs]
    simp
  · intro q hq e hc
    rw [hunfold]
    simp only
    rw [startTunnelFold_status]
    have := lookup_statusFold_state
      (fun q => match createPeerConfig env q with
        | Except.error _ => PeerState.error
        | Except.ok _ => PeerState.configuring)
      (validationError env) now cfg.peers hnames st0 q hq
    rw [this]
    simp only [hc]
  · intro q hq pc hc
    rw [hunfold]
    simp only
    rw [startTunnelFold_status]
    have := lookup_statusFold_state
      (fun q => match createPeerConfig env q with
        | Except.error _ => PeerState.error
        | Except.ok _ => PeerState.configuring)
      (validationError env) now cfg.peers hnames st0 q hq
    rw [this]
    simp only [hc]
  · rintro ⟨q, hq, e, hc⟩
    rw [hunfold]
    simp only
    rw [startTunnelFold_lastErr, lastErr_foldl_none]
    have hmem : e ∈ cfg.peers.filterMap (validationError env) :=
      List.mem_filterMap.mpr ⟨q, hq, by simp [validationError, hc]⟩
    have hne : cfg.peers.filterMap (validationError env) ≠ [] :=
      List.ne_nil_of_mem hmem
    rw [Option.isSome_iff_exists]
    exact ⟨_, List.getLast?_eq_getLast _ hne⟩

/-- Witness for C3: under the fixture oracle, the invalid peer `b1` of the
three-peer fixture config is marked `Error` by `startTunnel`. -/
theorem C3_validation_isolation_witness :
    (mapLookup (startTunnel envT cfg3 st0T 0).status.peers "b1").map
      PeerStatus.state = some PeerState.error :=
  (C3_validation_isolation envT cfg3 st0T 0 0 (by decide) rfl
    (fun _ _ => rfl)).2.1 peerBad1 (by decide)
    "invalid public key for peer b1" rfl

/-- Claim C4, counterexample: with two peers failing validation,
`StartTunnel` returns the error of the second (last) one, not the first per-
peer validation error encountered in peer-list order. -/
theorem C4_first_error_counterexample :
    (cfg2bad.peers = [peerBad1, peerBad2]) ∧
    (validationError envT peerBad1 = some "invalid public key for peer b1") ∧
    ((startTunnel envT cfg2bad st0T 0).ret =
      some "invalid public key for peer b2") ∧
    (("invalid public key for peer b2" : String) ≠
      "invalid public key for peer b1") := by
  refine ⟨rfl, by decide, by decide, by decide⟩

/-- Claim C4, amended: when the private key parses and the device-level
apply succeeds, `StartTunnel` returns the last per-peer validation error
encountered in peer-list order (`nil` when every peer validated). -/
theorem C4_returns_last_error (env : NetEnv) (cfg : Config)
    (st0 : MeshStatus) (now : Int) (pk : Nat)
    (hpk : env.parseKey cfg.privateKey = some pk)
    (happly : ∀ n dc, env.configureDevice n dc = none) :
    (startTunnel env cfg st0 now).ret =
      (cfg.peers.filterMap (validationError env)).getLast? := by
  simp only [startTunnel, hpk, happly]
  rw [startTunnelFold_lastErr, lastErr_foldl_none]

/-- Witness for C4 at the two-bad-peer fixture. -/
theorem C4_returns_last_error_witness :
    (startTunnel envT cfg2bad st0T 0).ret =
      (cfg2bad.peers.filterMap (validationError envT)).getLast? :=
  C4_returns_last_error envT cfg2bad st0T 0 0 rfl (fun _ _ => rfl)

lemma monitorTick_preserves_status_field (cfg : Config)
    (dps : List DevicePeer) (now : Int) :
    ∀ st : MeshStatus, (monitorTick cfg st dps now).status = st.status ∧
      (monitorTick cfg st dps now).lastUpdate = st.lastUpdate := by
  induction dps with
  | nil =>
    intro st
    exact ⟨rfl, rfl⟩
  | cons dp rest ih =>
    intro st
    have h1 : (monitorTickPeer cfg st dp now).status = st.status ∧
        (monitorTickPeer cfg st dp now).lastUpdate = st.lastUpdate := by
      unfold monitorTickPeer
      by_cases h : getPeerNameByKey cfg dp.publicKey = ""
      · simp [h]
      · simp [h]
    have h2 := ih (monitorTickPeer cfg st dp now)
    simp only [monitorTick, List.foldl_cons] at h2 ⊢
    exact ⟨h2.1.trans h1.1, h2.2.trans h1.2⟩

/-- Claim C5, counterexample: the health monitor's traffic recording does
not recompute the aggregate. Starting from a consistent status (peer `A` up,
aggregate `up`), one monitor tick that marks `A` down leaves the aggregate
field at `up` while the aggregate recomputed from the peer map is `down`. -/
theorem C5_stale_aggregate_counterexample :
    ((monitorTick cfgMon stMon [dpStale] 1000).status = MeshState.up) ∧
    (computeMeshState
      ((monitorTick cfgMon stMon [dpStale] 1000).peers.map Prod.snd) =
      MeshState.down) ∧
    (MeshState.up ≠ MeshState.down) := by
  refine ⟨by decide, by decide, by decide⟩

/-- Claim C5, amended: the reconciler's `updatePeerState` always recomputes
the aggregate from the full peer map it just wrote, but the health monitor's
per-peer update (`monitorPeers`) never touches the aggregate `Status` (or
`LastUpdate`) field, so the aggregate can be left stale relative to the peer
map after a monitor tick. -/
theorem C5_aggregate_recompute_scope (st : MeshStatus) (name : String)
    (s : PeerState) (e : Option String) (now : Int) (cfg : Config)
    (dps : List DevicePeer) (st2 : MeshStatus) (now2 : Int) :
    ((updatePeerState st name s e now).status =
      computeMeshState ((updatePeerState st name s e now).peers.map Prod.snd)) ∧
    ((monitorTick cfg st2 dps now2).status = st2.status) ∧
    ((monitorTick cfg st2 dps now2).lastUpdate = st2.lastUpdate) := by
  refine ⟨rfl, ?_, ?_⟩
  · exact (monitorTick_preserves_status_field cfg dps now2 st2).1
  · exact (monitorTick_preserves_status_field cfg dps now2 st2).2

/-- Claim C6, counterexample: for a valid NAT-assisted peer spec with a
non-zero keepalive port, the device peer configuration built by
`createPeerConfig` has no persistent-keepalive interval at all. -/
theorem C6_keepalive_counterexample :
    (peerNat.natAssisted = true) ∧ (peerNat.port = 7) ∧
    ((createPeerConfig envT peerNat).toOption.map
      PeerConfig.persistentKeepaliveInterval = some none) := by
  refine ⟨rfl, rfl, rfl⟩

/-- Claim C6, amended: for every peer spec that validates,
`createPeerConfig` builds a device peer configuration whose persistent-
keepalive interval is unset (regardless of `natAssisted` or the keepalive
seconds), with `ReplaceAllowedIPs` set. -/
theorem C6_no_keepalive (env : NetEnv) (peer : Peer) (pc : PeerConfig)
    (h : createPeerConfig env peer = Except.ok pc) :
    pc.persistentKeepaliveInterval = none ∧ pc.replaceAllowedIPs = true := by
  rcases hk : env.parseKey peer.publicKey with _ | pub
  · simp [createPeerConfig, hk] at h
  · rcases he : resolveEndpoint env peer with e | ep
    · simp [createPeerConfig, hk, he] at h
    · rcases hc : parseCIDRList env peer.name peer.allowedIPs with e | ips
      · simp [createPeerConfig, hk, he, hc] at h
      · simp only [createPeerConfig, hk, he, hc, Except.ok.injEq] at h
        rw [← h]
        exact ⟨rfl, rfl⟩

/-- Witness for C6 at a concrete valid peer. -/
theorem C6_no_keepalive_witness :
    ({ publicKey := 0, endpoint := none, allowedIPs := [],
       replaceAllowedIPs := true,
       persistentKeepaliveInterval := none : PeerConfig
     }).persistentKeepaliveInterval = none ∧
    ({ publicKey := 0, endpoint := none, allowedIPs := [],
       replaceAllowedIPs := true,
       persistentKeepaliveInterval := none : PeerConfig
     }).replaceAllowedIPs = true :=
  C6_no_keepalive envT peerOK1 _ rfl

/-- Claim C7: when the backup write fails at the start of a hot-reload
cycle, `handleConfigChange` aborts before loading, diffing, or applying
anything (its trace is only the backup failure) and the in-memory config is
unchanged. -/
theorem C7_backup_failure_aborts (env : ReloadEnv) (cfg : Config)
    (h : env.backupOk = false) :
    handleConfigChange env cfg = (cfg, [ReloadAction.backupFailed]) := by
  simp [handleConfigChange, h]

/-- Witness for C7 at a concrete failing-backup environment. -/
theorem C7_backup_failure_aborts_witness :
    handleConfigChange { backupOk := false, loadConfig := none } cfgMon =
      (cfgMon, [ReloadAction.backupFailed]) :=
  C7_backup_failure_aborts { backupOk := false, loadConfig := none } cfgMon rfl

/-- Claim C8: the monitor records a peer `up` exactly when a handshake
happened strictly less than 3 minutes ago; a handshake 3 or more minutes old
— or no handshake at all — is recorded `down`; the boundary is exactly
3 minutes (180 seconds); and the per-peer monitor step stores exactly this
classification for a matched peer. -/
theorem C8_liveness_boundary (t now : Int) (cfg : Config) (st : MeshStatus)
    (dp : DevicePeer) (now2 : Int) :
    (now - t < threeMinutes → livenessState (some t) now = PeerState.up) ∧
    (threeMinutes ≤ now - t → livenessState (some t) now = PeerState.down) ∧
    (livenessState none now = PeerState.down) ∧
    (threeMinutes = 180) ∧
    (getPeerNameByKey cfg dp.publicKey ≠ "" →
      (mapLookup (monitorTickPeer cfg st dp now2).peers
        (getPeerNameByKey cfg dp.publicKey)).map PeerStatus.state =
        some (livenessState dp.lastHandshakeTime now2)) := by
  refine ⟨?_, ?_, rfl, rfl, ?_⟩
  · intro h
    simp [livenessState, h]
  · intro h
    simp [livenessState, not_lt.mpr h]
  · intro h
    unfold monitorTickPeer
    simp only [h, if_false]
    rw [mapLookup_mapInsert]
    simp only [if_pos rfl]
    rcases dp.lastHandshakeTime with _ | t'
    · simp [livenessState]
    · by_cases hf : now2 - t' < threeMinutes
      · simp [livenessState, hf]
      · simp [livenessState, hf]

/-- Witness for C8: a 100-second-old handshake is `up`, an exactly
180-second-old handshake is `down`. -/
theorem C8_liveness_boundary_witness :
    livenessState (some 0) 100 = PeerState.up ∧
    livenessState (some 0) 180 = PeerState.down :=
  ⟨(C8_liveness_boundary 0 100 cfgMon stMon dpStale 0).1 (by decide),
   (C8_liveness_boundary 0 180 cfgMon stMon dpStale 0).2.1 (by decide)⟩

/-- Claim C9, counterexample: the backup suffix produced by Go's layout
`"20060102_150405"` is `YYYYMMDD_HHMMSS` — 15 characters with an underscore
— not a contiguous 14-digit timestamp. -/
theorem C9_timestamp_counterexample :
    (formatBackupTimestamp 2026 10 12 13 14 15 = "20261012_131415") ∧
    ((formatBackupTimestamp 2026 10 12 13 14 15).length ≠ 14) ∧
    (¬ (formatBackupTimestamp 2026 10 12 13 14 15).data.all Char.isDigit) := by
  refine ⟨by decide, by decide, by decide⟩

lemma digitChar_mod_isDigit (n : Nat) :
    (Nat.digitChar (n % 10)).isDigit = true := by
  have hlt : n % 10 < 10 := Nat.mod_lt _ (by decide)
  have hall : ∀ m, m < 10 → (Nat.digitChar m).isDigit = true := by decide
  exact hall _ hlt

/-- Claim C9, amended: on the hot-reload pre-step the active config is
serialized to `<original-path>.backup_<YYYYMMDD_HHMMSS>` — eight date
digits, an underscore, six time-of-day digits — and written with owner-only
(0600) permissions. -/
theorem C9_backup_path_shape (p : String) (y mo d h mi s : Nat) :
    (backupPath p y mo d h mi s =
      p ++ ".backup_" ++ formatBackupTimestamp y mo d h mi s) ∧
    (∃ date timeOfDay : String,
      formatBackupTimestamp y mo d h mi s = date ++ "_" ++ timeOfDay ∧
      date.length = 8 ∧ date.data.all Char.isDigit = true ∧
      timeOfDay.length = 6 ∧ timeOfDay.data.all Char.isDigit = true) ∧
    backupFileMode = 0o600 := by
  refine ⟨rfl,
    ⟨pad4 y ++ pad2 mo ++ pad2 d, pad2 h ++ pad2 mi ++ pad2 s,
      ?_, ?_, ?_, ?_, ?_⟩, rfl⟩
  · unfold formatBackupTimestamp
    apply String.ext
    simp [String.data_append, List.append_assoc]
  · rfl
  · simp [pad4, pad2, String.data_append, digitChar_mod_isDigit]
  · rfl
  · simp [pad2, String.data_append, digitChar_mod_isDigit]

end Wgmesh
